import Mathlib

/-!
# Verification of the ORION integrity-gated merge and validation pipeline

Shallow embedding of the merge/coverage engine, manifest engine, hashing
utility and parity checker of the ORION data-integration layer
(`backend/orion/data_loader_fixed.py`, `backend/orion/parity_checker.py`,
`OrionRebuildWix-clean/backend/orion/integrity.py`,
`OrionRebuildWix-clean/backend/orion/data_loader.py`), together with proofs
and refutations of the specified properties.

Numeric values computed by the Python code with `float` arithmetic are
modelled with `ℚ`; byte strings are `List Nat` with each byte reduced
mod 256.
-/

namespace Orion

instance {ε α : Type} [DecidableEq ε] [DecidableEq α] :
    DecidableEq (Except ε α) := fun
  | .error e, .error e' => decidable_of_iff (e = e') (by simp)
  | .ok a, .ok a' => decidable_of_iff (a = a') (by simp)
  | .error _, .ok _ => isFalse fun h => Except.noConfusion h
  | .ok _, .error _ => isFalse fun h => Except.noConfusion h

/-! ## SHA-256 (models Python's `hashlib.sha256`)

A full executable SHA-256 over byte lists.  Word arithmetic is `Nat`
with explicit reduction mod `2^32`. -/

/-- Truncate to a 32-bit word. -/
def w32 (n : Nat) : Nat := n % 4294967296

/-- 32-bit right rotation (input assumed < 2^32). -/
def rotr32 (x n : Nat) : Nat := w32 ((x >>> n) ||| (x <<< (32 - n)))

/-- SHA-256 round constants. -/
def sha256K : List Nat :=
  [1116352408, 1899447441, 3049323471, 3921009573, 961987163, 1508970993,
   2453635748, 2870763221, 3624381080, 310598401, 607225278, 1426881987,
   1925078388, 2162078206, 2614888103, 3248222580, 3835390401, 4022224774,
   264347078, 604807628, 770255983, 1249150122, 1555081692, 1996064986,
   2554220882, 2821834349, 2952996808, 3210313671, 3336571891, 3584528711,
   113926993, 338241895, 666307205, 773529912, 1294757372, 1396182291,
   1695183700, 1986661051, 2177026350, 2456956037, 2730485921, 2820302411,
   3259730800, 3345764771, 3516065817, 3600352804, 4094571909, 275423344,
   430227734, 506948616, 659060556, 883997877, 958139571, 1322822218,
   1537002063, 1747873779, 1955562222, 2024104815, 2227730452, 2361852424,
   2428436474, 2756734187, 3204031479, 3329325298]

/-- SHA-256 initial hash values. -/
def sha256H0 : List Nat :=
  [1779033703, 3144134277, 1013904242, 2773480762,
   1359893119, 2600822924, 528734635, 1541459225]

def sha256Ch (e f g : Nat) : Nat := (e &&& f) ^^^ ((e ^^^ 0xffffffff) &&& g)

def sha256Maj (a b c : Nat) : Nat := (a &&& b) ^^^ (a &&& c) ^^^ (b &&& c)

def bsig0 (x : Nat) : Nat := rotr32 x 2 ^^^ rotr32 x 13 ^^^ rotr32 x 22

def bsig1 (x : Nat) : Nat := rotr32 x 6 ^^^ rotr32 x 11 ^^^ rotr32 x 25

def ssig0 (x : Nat) : Nat := rotr32 x 7 ^^^ rotr32 x 18 ^^^ (x >>> 3)

def ssig1 (x : Nat) : Nat := rotr32 x 17 ^^^ rotr32 x 19 ^^^ (x >>> 10)

/-- Big-endian 8-byte encoding of a natural number. -/
def beBytes8 (n : Nat) : List Nat :=
  [(n >>> 56) % 256, (n >>> 48) % 256, (n >>> 40) % 256, (n >>> 32) % 256,
   (n >>> 24) % 256, (n >>> 16) % 256, (n >>> 8) % 256, n % 256]

/-- SHA-256 message padding: append `0x80`, zeros to 56 mod 64, then the
bit length as 8 big-endian bytes. -/
def sha256Pad (msg : List Nat) : List Nat :=
  let l := msg.length
  let zeros := (64 + 56 - (l + 1) % 64) % 64
  msg ++ [0x80] ++ List.replicate zeros 0 ++ beBytes8 (8 * l)

/-- Split a byte list into successive chunks of `n` bytes; the final chunk
may be shorter.  This mirrors the `iter(lambda: f.read(n), b"")` loop of
`integrity.sha256_file`, which reads chunks until an empty read. -/
def readChunks (n : Nat) (bs : List Nat) : List (List Nat) :=
  if n = 0 ∨ bs.isEmpty then [] else bs.take n :: readChunks n (bs.drop n)
termination_by bs.length
decreasing_by
  rename_i h
  simp only [not_or] at h
  obtain ⟨hn, hne⟩ := h
  have hbs : bs ≠ [] := by simpa using hne
  have : 0 < bs.length := List.length_pos.mpr hbs
  simp only [List.length_drop]
  omega

/-- The sixteen 32-bit big-endian words of a 64-byte block. -/
def wordsOfBlock (b : List Nat) : List Nat :=
  (List.range 16).map fun i =>
    ((b.getD (4 * i) 0) <<< 24) ||| ((b.getD (4 * i + 1) 0) <<< 16) |||
    ((b.getD (4 * i + 2) 0) <<< 8) ||| (b.getD (4 * i + 3) 0)

/-- Extend the 16 block words to the 64-entry message schedule. -/
def sha256Schedule (ws : List Nat) : List Nat :=
  (List.range 48).foldl
    (fun acc _ =>
      let m := acc.length
      acc ++ [w32 (ssig1 (acc.getD (m - 2) 0) + acc.getD (m - 7) 0 +
                   ssig0 (acc.getD (m - 15) 0) + acc.getD (m - 16) 0)])
    ws

/-- One SHA-256 compression round on the state `[a,b,c,d,e,f,g,h]`. -/
def sha256Round (st : List Nat) (k w : Nat) : List Nat :=
  match st with
  | [a, b, c, d, e, f, g, h] =>
    let t1 := w32 (h + bsig1 e + sha256Ch e f g + k + w)
    let t2 := w32 (bsig0 a + sha256Maj a b c)
    [w32 (t1 + t2), a, b, c, w32 (d + t1), e, f, g]
  | _ => st

/-- Compress one 64-byte block into the chaining state. -/
def sha256Compress (h : List Nat) (block : List Nat) : List Nat :=
  let ws := sha256Schedule (wordsOfBlock block)
  let st := (List.range 64).foldl
    (fun st i => sha256Round st (sha256K.getD i 0) (ws.getD i 0)) h
  List.zipWith (fun x y => w32 (x + y)) h st

/-- Process `n` successive 64-byte blocks into the chaining state
(structural recursion on the block count so that the kernel can evaluate
digests). -/
def sha256Blocks : Nat → List Nat → List Nat → List Nat
  | 0, h, _ => h
  | n + 1, h, bs => sha256Blocks n (sha256Compress h (bs.take 64)) (bs.drop 64)

/-- The eight 32-bit words of the SHA-256 digest of a byte list. -/
def sha256Words (msg : List Nat) : List Nat :=
  let padded := sha256Pad (msg.map (· % 256))
  sha256Blocks (padded.length / 64) sha256H0 padded

/-- Lowercase hexadecimal digit. -/
def hexChar (n : Nat) : Char :=
  if n < 10 then Char.ofNat (48 + n) else Char.ofNat (87 + n % 16)

/-- Eight lowercase hex characters of a 32-bit word. -/
def wordHex (n : Nat) : String :=
  String.mk ((List.range 8).map fun i => hexChar ((n >>> (4 * (7 - i))) % 16))

/-- SHA-256 hex digest of a byte list (models
`hashlib.sha256(data).hexdigest()`). -/
def sha256Hex (msg : List Nat) : String :=
  String.join ((sha256Words msg).map wordHex)

/-- UTF-8 encoding of one character. -/
def utf8Char (c : Char) : List Nat :=
  let n := c.toNat
  if n < 0x80 then [n]
  else if n < 0x800 then
    [0xC0 ||| (n >>> 6), 0x80 ||| (n &&& 0x3F)]
  else if n < 0x10000 then
    [0xE0 ||| (n >>> 12), 0x80 ||| ((n >>> 6) &&& 0x3F), 0x80 ||| (n &&& 0x3F)]
  else
    [0xF0 ||| (n >>> 18), 0x80 ||| ((n >>> 12) &&& 0x3F),
     0x80 ||| ((n >>> 6) &&& 0x3F), 0x80 ||| (n &&& 0x3F)]

/-- UTF-8 encoding of a string (models Python `str.encode('utf-8')`). -/
def utf8Bytes (s : String) : List Nat :=
  s.data.foldr (fun c acc => utf8Char c ++ acc) []

/-! ## Hashing utility (`integrity.sha256_file`)

`hashlib`'s incremental interface: the context of a cumulative digest is
exactly the sequence of bytes absorbed so far — `update` appends a chunk
and `hexdigest` hashes the absorbed bytes. -/

/-- `hashlib` incremental `update`: absorb one chunk. -/
def hash_update (ctx chunk : List Nat) : List Nat := ctx ++ chunk

/-- `hashlib` `hexdigest` of an incremental context. -/
def hash_hexdigest (ctx : List Nat) : String := sha256Hex ctx

/-- `integrity.sha256_file`: read the file in 4096-byte chunks, absorbing
each chunk into the cumulative digest, then take the hex digest. -/
def sha256_file (fileBytes : List Nat) : String :=
  hash_hexdigest ((readChunks 4096 fileBytes).foldl hash_update [])

theorem readChunks_foldl_append (n : Nat) (hn : 0 < n) :
    ∀ bs acc : List Nat, (readChunks n bs).foldl hash_update acc = acc ++ bs := by
  have H : ∀ (k : Nat) (bs : List Nat), bs.length ≤ k →
      ∀ acc, (readChunks n bs).foldl hash_update acc = acc ++ bs := by
    intro k
    induction k with
    | zero =>
      intro bs h acc
      have hbs : bs = [] := List.eq_nil_of_length_eq_zero (by omega)
      subst hbs
      rw [readChunks]
      simp
    | succ k ih =>
      intro bs h acc
      rw [readChunks]
      by_cases hc : n = 0 ∨ bs.isEmpty
      · rw [if_pos hc]
        rcases hc with hc | hc
        · omega
        · simp [List.isEmpty_iff.mp hc]
      · rw [if_neg hc]
        simp only [not_or] at hc
        have hbs : bs ≠ [] := by simpa using hc.2
        have hpos : 0 < bs.length := List.length_pos.mpr hbs
        simp only [List.foldl_cons, hash_update]
        rw [ih (bs.drop n) (by simp only [List.length_drop]; omega)]
        rw [List.append_assoc, List.take_append_drop]
  exact fun bs acc => H bs.length bs le_rfl acc

/-- C8: chunked incremental hashing refines whole-content hashing. -/
theorem sha256_file_eq_sha256Hex (bs : List Nat) :
    sha256_file bs = sha256Hex bs := by
  unfold sha256_file hash_hexdigest
  rw [readChunks_foldl_append 4096 (by omega) bs []]
  rfl

/-! ## Coverage metric (`integrity.coverage`) -/

/-- `integrity.coverage`: percentage of `left_ids` that appear in
`right_ids`; returns 100 for an empty left set and short-circuits to 0 for
an empty right set. -/
def coverage (left_ids right_ids : Finset String) : ℚ :=
  if left_ids = ∅ then 100
  else if right_ids = ∅ then 0
  else ((left_ids ∩ right_ids).card : ℚ) / (left_ids.card : ℚ) * 100

/-! ## Manifest engine (`integrity.py`) -/

/-- `integrity.MIN_COVERAGE_PERCENT` (= 99.5; written as an exact ratio). -/
def MIN_COVERAGE_PERCENT : ℚ := 995 / 10

/-- `data_loader_fixed.REQUIRED_FEATURES_COLUMNS`. -/
def REQUIRED_FEATURES_COLUMNS : List String :=
  ["id", "cluster_labels", "cluster_titles", "umap2d_x", "umap2d_y"]

/-- The feature bundle as loaded from the pickle/parquet file: a mapping
from column name to parallel array.  Each field is `none` when the key is
absent from the mapping.  A `none` entry inside `cluster_labels` models a
NaN value. -/
structure FeaturesData where
  id : Option (List String)
  cluster_labels : Option (List (Option Int))
  cluster_titles : Option (List (Int × String))
  umap2d_x : Option (List ℚ)
  umap2d_y : Option (List ℚ)
deriving Repr, DecidableEq

/-- The required columns absent from a feature bundle, in the order of
`REQUIRED_FEATURES_COLUMNS` (models `require_columns` on
`pd.DataFrame(features_data)`). -/
def featuresMissingColumns (f : FeaturesData) : List String :=
  (if f.id.isNone then ["id"] else []) ++
  (if f.cluster_labels.isNone then ["cluster_labels"] else []) ++
  (if f.cluster_titles.isNone then ["cluster_titles"] else []) ++
  (if f.umap2d_x.isNone then ["umap2d_x"] else []) ++
  (if f.umap2d_y.isNone then ["umap2d_y"] else [])

/-- `StartupIntegrityError` as raised by the integrity module, carrying the
data embedded in the formatted message. -/
inductive IntegrityError where
  | missingColumns (missing : List String)
  | lowCoverage (pct : ℚ)
deriving Repr, DecidableEq

/-- `integrity.validate_strict_mode`: required-columns check, then the
99.5% coverage floor. -/
def validate_strict_mode (f : FeaturesData) (coverage_pct : ℚ) :
    Except IntegrityError Unit :=
  if featuresMissingColumns f ≠ [] then
    .error (.missingColumns (featuresMissingColumns f))
  else if coverage_pct < MIN_COVERAGE_PERCENT then
    .error (.lowCoverage coverage_pct)
  else
    .ok ()

/-- The persisted manifest record (`integrity.create_manifest` fields). -/
structure Manifest where
  features_sha256 : String
  dataset_sha256 : String
  rows_dataset : Nat
  rows_features : Nat
  coverage_pct : ℚ
  generated_at : String
  strict_mode : Bool
  app_version : String
  dataset_file : String
  features_file : String
  required_columns : List String
deriving Repr, DecidableEq

/-- Python's `round(q, 2)` (round half to even) on exact rationals. -/
def pyRound2 (q : ℚ) : ℚ :=
  let s := q * 100
  let fl := ⌊s⌋
  let frac := s - (fl : ℚ)
  let r : ℤ :=
    if frac < 1/2 then fl
    else if frac > 1/2 then fl + 1
    else if fl % 2 = 0 then fl else fl + 1
  (r : ℚ) / 100

/-- `integrity.create_manifest`: a fresh manifest from freshly computed
hashes, row counts, rounded coverage, timestamp and app version.
The timestamp (`datetime.now`) and resolved app version (`get_app_version`)
are environment inputs, passed as parameters. -/
def create_manifest (dataset_file features_file : String)
    (datasetBytes featuresBytes : List Nat) (dataset_ids : List String)
    (f : FeaturesData) (coverage_pct : ℚ) (strict_mode : Bool)
    (now app_version : String) : Manifest :=
  { features_sha256 := sha256_file featuresBytes
    dataset_sha256 := sha256_file datasetBytes
    rows_dataset := dataset_ids.length
    rows_features := (f.id.getD []).length
    coverage_pct := pyRound2 coverage_pct
    generated_at := now
    strict_mode := strict_mode
    app_version := app_version
    dataset_file := dataset_file
    features_file := features_file
    required_columns := REQUIRED_FEATURES_COLUMNS }

/-- `integrity.generate_or_validate_manifest`.  `dataset_ids` is the `id`
column of the dataset frame (as strings); `existing` is the result of
`read_manifest` (`none` when the manifest file is absent or unreadable).
Returns the manifest together with a flag recording whether the manifest
file was (re)written. -/
def generate_or_validate_manifest (dataset_file features_file : String)
    (datasetBytes featuresBytes : List Nat) (dataset_ids : List String)
    (f : FeaturesData) (strict_mode : Bool) (existing : Option Manifest)
    (now app_version : String) : Except IntegrityError (Manifest × Bool) :=
  let coverage_pct := coverage dataset_ids.toFinset (f.id.getD []).toFinset
  match (if strict_mode then validate_strict_mode f coverage_pct else .ok ()) with
  | .error e => .error e
  | .ok _ =>
    let fresh : Except IntegrityError (Manifest × Bool) :=
      .ok (create_manifest dataset_file features_file datasetBytes
             featuresBytes dataset_ids f coverage_pct strict_mode now
             app_version, true)
    match existing with
    | some m =>
      if m.dataset_sha256 = sha256_file datasetBytes ∧
         m.features_sha256 = sha256_file featuresBytes then
        .ok (m, false)
      else fresh
    | none => fresh

/-- C2: the coverage function computes `|left ∩ right| / |left| × 100`, and
is 100 exactly on an empty left set; the empty-right-set shortcut agrees
with the general formula. -/
theorem coverage_eq_formula (l r : Finset String) :
    coverage l r =
      if l = ∅ then 100 else ((l ∩ r).card : ℚ) / (l.card : ℚ) * 100 := by
  unfold coverage
  by_cases hl : l = ∅
  · simp [hl]
  · rw [if_neg hl, if_neg hl]
    by_cases hr : r = ∅
    · simp [hr]
    · rw [if_neg hr]

/-- C4 (amended): provided strict-mode validation passes (strict mode off,
or all required feature columns present and coverage at least 99.5%):
when a manifest exists whose two recorded hashes equal the freshly
computed file hashes, the existing record is returned unchanged and the
manifest file is not rewritten; otherwise a fresh manifest (new hashes,
row counts, rounded coverage, timestamp, resolved version) is created and
persisted. -/
theorem generate_or_validate_manifest_frame
    (df ff : String) (dsB fsB : List Nat) (ids : List String)
    (f : FeaturesData) (strict : Bool) (existing : Option Manifest)
    (now ver : String)
    (hv : strict = true →
      validate_strict_mode f
        (coverage ids.toFinset (f.id.getD []).toFinset) = .ok ()) :
    (∀ m, existing = some m →
      m.dataset_sha256 = sha256_file dsB →
      m.features_sha256 = sha256_file fsB →
      generate_or_validate_manifest df ff dsB fsB ids f strict existing now ver
        = .ok (m, false)) ∧
    (∀ m, existing = some m →
      ¬(m.dataset_sha256 = sha256_file dsB ∧
        m.features_sha256 = sha256_file fsB) →
      generate_or_validate_manifest df ff dsB fsB ids f strict existing now ver
        = .ok (create_manifest df ff dsB fsB ids f
            (coverage ids.toFinset (f.id.getD []).toFinset) strict now ver,
            true)) ∧
    (existing = none →
      generate_or_validate_manifest df ff dsB fsB ids f strict existing now ver
        = .ok (create_manifest df ff dsB fsB ids f
            (coverage ids.toFinset (f.id.getD []).toFinset) strict now ver,
            true)) := by
  have hval : (if strict = true then
      validate_strict_mode f (coverage ids.toFinset (f.id.getD []).toFinset)
      else Except.ok ()) = Except.ok () := by
    cases strict
    · rfl
    · exact hv rfl
  refine ⟨?_, ?_, ?_⟩
  · intro m hm h1 h2
    subst hm
    simp only [generate_or_validate_manifest, hval]
    rw [if_pos ⟨h1, h2⟩]
  · intro m hm hne
    subst hm
    simp only [generate_or_validate_manifest, hval]
    rw [if_neg hne]
  · intro hm
    subst hm
    simp only [generate_or_validate_manifest, hval]

/-- Concrete feature bundle for the C4 instances: all required columns
present, empty identifier array. -/
def c4exF : FeaturesData :=
  { id := some [], cluster_labels := some [], cluster_titles := some []
    umap2d_x := some [], umap2d_y := some [] }

/-- Concrete existing manifest whose recorded hashes match the current
files `[0]` and `[1]`. -/
def c4exM : Manifest :=
  { features_sha256 := sha256_file [1]
    dataset_sha256 := sha256_file [0]
    rows_dataset := 1
    rows_features := 0
    coverage_pct := 0
    generated_at := "2024-01-01T00:00:00+00:00"
    strict_mode := false
    app_version := "unknown"
    dataset_file := "d"
    features_file := "f"
    required_columns := REQUIRED_FEATURES_COLUMNS }

theorem generate_or_validate_manifest_frame_witness :
    generate_or_validate_manifest "d" "f" [0] [1] ["a"] c4exF false
        (some c4exM) "t" "v" = .ok (c4exM, false) ∧
    generate_or_validate_manifest "d" "f" [0] [1] ["a"] c4exF false
        none "t" "v"
      = .ok (create_manifest "d" "f" [0] [1] ["a"] c4exF
          (coverage (["a"] : List String).toFinset
            ((c4exF.id.getD []).toFinset)) false "t" "v", true) :=
  ⟨(generate_or_validate_manifest_frame "d" "f" [0] [1] ["a"] c4exF false
      (some c4exM) "t" "v" (fun h => Bool.noConfusion h)).1 c4exM rfl rfl rfl,
   (generate_or_validate_manifest_frame "d" "f" [0] [1] ["a"] c4exF false
      none "t" "v" (fun h => Bool.noConfusion h)).2.2 rfl⟩

/-- C4 counterexample to the claim as stated: in strict mode with coverage
below 99.5%, `generate_or_validate_manifest` raises a startup-integrity
error even though an existing manifest's recorded hashes match the freshly
computed hashes of the current files — the existing manifest is not
returned. -/
theorem generate_or_validate_manifest_strict_counterexample :
    c4exM.dataset_sha256 = sha256_file [0] ∧
    c4exM.features_sha256 = sha256_file [1] ∧
    generate_or_validate_manifest "d" "f" [0] [1] ["a"] c4exF true
        (some c4exM) "t" "v" = .error (.lowCoverage 0) :=
  ⟨rfl, rfl, by
    have hcov : coverage (["a"] : List String).toFinset
        ((c4exF.id.getD []).toFinset) = 0 := by decide
    have hval : validate_strict_mode c4exF 0
        = Except.error (.lowCoverage 0) := by
      simp only [validate_strict_mode, featuresMissingColumns, c4exF]
      norm_num [MIN_COVERAGE_PERCENT]
    simp only [generate_or_validate_manifest, hcov, hval, if_true]⟩

/-! ## Identifier-keyed merge (`data_loader_fixed._merge_features_with_dataset`)

The dataset is represented by its `id` column (a list of identifier
strings, one per row, as guaranteed by `_ensure_id_column`); the feature
frame `pd.DataFrame(features)` by its rows, each an identifier paired with
the feature-column values of that row. -/

/-- Feature-column values of one row of the features frame; `none` models
a NaN value. -/
structure FeatureRow where
  cluster_labels : Option Int
  umap2d_x : Option ℚ
  umap2d_y : Option ℚ
deriving Repr, DecidableEq

/-- The all-NaN feature values attached to an unmatched dataset row by the
left join. -/
def emptyFeatureRow : FeatureRow := ⟨none, none, none⟩

/-- Data carried by the `StartupIntegrityError` message raised by the
strict-mode check of `_merge_features_with_dataset`. -/
structure MergeError where
  unmatched_count : Nat
  total_count : Nat
  unmatched_rate : ℚ
deriving Repr, DecidableEq

/-- Pandas left join `dataset.merge(features_df, on='id', how='left')`:
each dataset row is reproduced once per feature row carrying the same
identifier (in feature order), or once with all-NaN feature values when no
feature row matches. -/
def leftJoin (dataset : List String) (features : List (String × FeatureRow)) :
    List (String × FeatureRow) :=
  match dataset with
  | [] => []
  | i :: rest =>
    let ms := features.filter fun p => p.1 = i
    (if ms.isEmpty then [(i, emptyFeatureRow)] else ms) ++ leftJoin rest features

/-- `data_loader_fixed._merge_features_with_dataset`: left-join features
onto the dataset by id; count unmatched rows via `isna` on the
`cluster_labels` column; in strict mode raise a `StartupIntegrityError`
when the unmatched rate exceeds 0.5%, otherwise return the merged table
(missing values are left as NaN, nothing is synthesized). -/
def merge_features_with_dataset (dataset : List String)
    (features : List (String × FeatureRow)) (strict_mode : Bool) :
    Except MergeError (List (String × FeatureRow)) :=
  let merged := leftJoin dataset features
  let unmatched_count := (merged.filter fun p => p.2.cluster_labels = none).length
  let total_count := merged.length
  let unmatched_rate : ℚ :=
    if 0 < total_count then (unmatched_count : ℚ) / (total_count : ℚ) else 0
  if strict_mode ∧ unmatched_rate > 5 / 1000 then
    .error ⟨unmatched_count, total_count, unmatched_rate⟩
  else
    .ok merged

theorem ok_of_ite_error {E A : Type} (c : Prop) [Decidable c] (e : E)
    (a m : A) (h : (if c then Except.error e else Except.ok a) = .ok m) :
    m = a := by
  by_cases hc : c
  · rw [if_pos hc] at h
    exact absurd h (by simp)
  · rw [if_neg hc] at h
    exact (Except.ok.inj h).symm

theorem filter_key_eq_nil_iff (fs : List (String × FeatureRow)) (i : String) :
    fs.filter (fun p => p.1 = i) = [] ↔ i ∉ fs.map Prod.fst := by
  induction fs with
  | nil => simp
  | cons p t ih =>
    by_cases hp : p.1 = i
    · simp [List.filter_cons, hp]
    · simp [List.filter_cons, hp, ih, Ne.symm hp]

theorem filter_key_length (fs : List (String × FeatureRow)) (i : String)
    (h : (fs.map Prod.fst).Nodup) :
    (fs.filter (fun p => p.1 = i)).length =
      if i ∈ fs.map Prod.fst then 1 else 0 := by
  induction fs with
  | nil => simp
  | cons p t ih =>
    simp only [List.map_cons, List.nodup_cons] at h
    obtain ⟨hp1, hp2⟩ := h
    by_cases hp : p.1 = i
    · have ht : t.filter (fun p => p.1 = i) = [] := by
        rw [filter_key_eq_nil_iff]
        rw [hp] at hp1
        exact hp1
      simp [List.filter_cons, hp, ht]
    · have hmi : (i ∈ p.1 :: List.map Prod.fst t) ↔ (i ∈ List.map Prod.fst t) := by
        simp [List.mem_cons, Ne.symm hp]
      have hd : (p :: t).filter (fun q => q.1 = i) = t.filter (fun q => q.1 = i) := by
        simp [List.filter_cons, hp]
      rw [hd, ih hp2]
      exact (if_congr hmi rfl rfl).symm

theorem leftJoin_length (dataset : List String)
    (features : List (String × FeatureRow))
    (h : (features.map Prod.fst).Nodup) :
    (leftJoin dataset features).length = dataset.length := by
  induction dataset with
  | nil => rfl
  | cons i rest ih =>
    rw [leftJoin]
    simp only [List.length_append, ih, List.length_cons]
    by_cases hm : (features.filter fun p => p.1 = i).isEmpty
    · rw [if_pos hm]
      simp only [List.length_singleton]
      omega
    · rw [if_neg hm]
      have hmem : i ∈ features.map Prod.fst := by
        by_contra hmem
        exact hm (by simp [List.isEmpty_iff, (filter_key_eq_nil_iff features i).mpr hmem])
      rw [filter_key_length features i h, if_pos hmem]
      omega

theorem leftJoin_unmatched_empty (dataset : List String)
    (features : List (String × FeatureRow)) :
    ∀ pr ∈ leftJoin dataset features,
      pr.1 ∉ features.map Prod.fst → pr.2 = emptyFeatureRow := by
  induction dataset with
  | nil => simp [leftJoin]
  | cons i rest ih =>
    intro pr hpr hnotin
    rw [leftJoin] at hpr
    simp only [List.mem_append] at hpr
    rcases hpr with hpr | hpr
    · by_cases hm : (features.filter fun p => p.1 = i).isEmpty
      · rw [if_pos hm] at hpr
        simp only [List.mem_singleton] at hpr
        rw [hpr]
      · rw [if_neg hm] at hpr
        have : pr ∈ features := List.mem_of_mem_filter hpr
        exact absurd (List.mem_map_of_mem Prod.fst this) hnotin
    · exact ih pr hpr hnotin

/-- C3 (amended): whenever the identifier-keyed merge returns a merged
table and the feature identifiers are pairwise distinct, the table has
exactly as many rows as the dataset, and every row whose identifier is
absent from the feature identifiers carries NaN in every feature column. -/
theorem merge_preserves_rowcount_and_blanks (dataset : List String)
    (features : List (String × FeatureRow)) (strict_mode : Bool)
    (hnd : (features.map Prod.fst).Nodup)
    (m : List (String × FeatureRow))
    (h : merge_features_with_dataset dataset features strict_mode = .ok m) :
    m.length = dataset.length ∧
    ∀ pr ∈ m, pr.1 ∉ features.map Prod.fst → pr.2 = emptyFeatureRow := by
  have hm : m = leftJoin dataset features := by
    simp only [merge_features_with_dataset] at h
    exact ok_of_ite_error _ _ _ _ h
  subst hm
  exact ⟨leftJoin_length dataset features hnd,
    leftJoin_unmatched_empty dataset features⟩

theorem merge_preserves_rowcount_and_blanks_witness :
    [("a", (⟨some 1, none, none⟩ : FeatureRow)), ("b", emptyFeatureRow)].length
      = (["a", "b"] : List String).length ∧
    ∀ pr ∈ [("a", (⟨some 1, none, none⟩ : FeatureRow)),
            ("b", emptyFeatureRow)],
      pr.1 ∉ [("a", (⟨some 1, none, none⟩ : FeatureRow))].map Prod.fst →
      pr.2 = emptyFeatureRow :=
  merge_preserves_rowcount_and_blanks ["a", "b"]
    [("a", ⟨some 1, none, none⟩)] false (by decide) _ (by decide)

/-- C3 counterexample to the claim as stated: a feature bundle whose
identifier array repeats an identifier is accepted by the merge even in
strict mode (unmatched rate 0), yet the merged table has two rows for a
one-row dataset. -/
theorem merge_rowcount_counterexample :
    merge_features_with_dataset ["a"]
        [("a", ⟨some 1, none, none⟩), ("a", ⟨some 1, none, none⟩)] true
      = .ok [("a", ⟨some 1, none, none⟩), ("a", ⟨some 1, none, none⟩)] ∧
    [("a", (⟨some 1, none, none⟩ : FeatureRow)),
     ("a", ⟨some 1, none, none⟩)].length ≠ (["a"] : List String).length := by
  refine ⟨?_, by decide⟩
  have hJ : leftJoin ["a"]
      [("a", (⟨some 1, none, none⟩ : FeatureRow)), ("a", ⟨some 1, none, none⟩)]
      = [("a", ⟨some 1, none, none⟩), ("a", ⟨some 1, none, none⟩)] := by decide
  simp only [merge_features_with_dataset, hJ]
  have hF : ([("a", (⟨some 1, none, none⟩ : FeatureRow)),
      ("a", ⟨some 1, none, none⟩)].filter
        fun p => p.2.cluster_labels = none) = [] := by decide
  rw [hF]
  norm_num

theorem leftJoin_unmatched_count (dataset : List String)
    (features : List (String × FeatureRow))
    (hlab : ∀ p ∈ features, p.2.cluster_labels ≠ none) :
    ((leftJoin dataset features).filter fun p => p.2.cluster_labels = none).length
      = (dataset.filter fun i => i ∉ features.map Prod.fst).length := by
  induction dataset with
  | nil => rfl
  | cons i rest ih =>
    rw [leftJoin]
    rw [List.filter_append, List.length_append, ih]
    by_cases hm : i ∈ features.map Prod.fst
    · have hne : ¬ (features.filter fun p => p.1 = i).isEmpty = true := by
        intro hc
        exact (filter_key_eq_nil_iff features i).mp (List.isEmpty_iff.mp hc) hm
      rw [if_neg hne]
      have hnil : ((features.filter fun p => p.1 = i).filter
          fun p => p.2.cluster_labels = none) = [] := by
        rw [List.filter_eq_nil_iff]
        intro p hp
        simpa using hlab p (List.mem_of_mem_filter hp)
      rw [hnil]
      simp [List.filter_cons, hm]
    · have he : (features.filter fun p => p.1 = i).isEmpty = true := by
        simp [List.isEmpty_iff, (filter_key_eq_nil_iff features i).mpr hm]
      rw [if_pos he]
      simp [List.filter_cons, hm, emptyFeatureRow]
      omega

theorem nodup_inter_card (dataset keys : List String) (h : dataset.Nodup) :
    (dataset.toFinset ∩ keys.toFinset).card
      = (dataset.filter fun i => i ∈ keys).length := by
  induction dataset with
  | nil => simp
  | cons a t ih =>
    rw [List.nodup_cons] at h
    obtain ⟨ha, ht⟩ := h
    rw [List.toFinset_cons]
    by_cases hk : a ∈ keys
    · rw [Finset.insert_inter_of_mem (List.mem_toFinset.mpr hk)]
      have hnotin : a ∉ t.toFinset ∩ keys.toFinset := by
        simp only [Finset.mem_inter, List.mem_toFinset]
        intro hc
        exact ha hc.1
      rw [Finset.card_insert_of_not_mem hnotin, ih ht]
      simp [List.filter_cons, hk]
    · rw [Finset.insert_inter_of_not_mem (fun hc => hk (List.mem_toFinset.mp hc))]
      rw [ih ht]
      simp [List.filter_cons, hk]

theorem filter_not_mem_length (dataset keys : List String) :
    (dataset.filter fun i => i ∉ keys).length
      = dataset.length - (dataset.filter fun i => i ∈ keys).length := by
  induction dataset with
  | nil => rfl
  | cons a t ih =>
    have hle : (t.filter fun i => i ∈ keys).length ≤ t.length :=
      List.length_filter_le _ t
    by_cases hk : a ∈ keys
    · have h1 : (a :: t).filter (fun i => i ∉ keys) = t.filter (fun i => i ∉ keys) := by
        simp [List.filter_cons, hk]
      have h2 : (a :: t).filter (fun i => i ∈ keys) = a :: t.filter (fun i => i ∈ keys) := by
        simp [List.filter_cons, hk]
      rw [h1, h2]
      simp only [List.length_cons, ih]
      omega
    · have h1 : (a :: t).filter (fun i => i ∉ keys) = a :: t.filter (fun i => i ∉ keys) := by
        simp [List.filter_cons, hk]
      have h2 : (a :: t).filter (fun i => i ∈ keys) = t.filter (fun i => i ∈ keys) := by
        simp [List.filter_cons, hk]
      rw [h1, h2]
      simp only [List.length_cons, ih]
      omega

theorem rate_iff_coverage (n k u : Nat) (hn : 0 < n) (hku : k + u = n) :
    ((u : ℚ) / (n : ℚ) > 5 / 1000) ↔ ((k : ℚ) / (n : ℚ) * 100 < 995 / 10) := by
  have hnq : (0 : ℚ) < (n : ℚ) := by exact_mod_cast hn
  have hc : (k : ℚ) + (u : ℚ) = (n : ℚ) := by exact_mod_cast hku
  rw [gt_iff_lt, div_lt_div_iff₀ (by norm_num) hnq, div_mul_eq_mul_div,
    div_lt_div_iff₀ hnq (by norm_num)]
  constructor <;> intro h <;> linarith

/-- C1 (amended): under the data-model invariants — pairwise-distinct
dataset identifiers, pairwise-distinct feature identifiers, and no missing
cluster-label values in the bundle — the strict-mode merge raises a
startup-integrity error iff coverage is below 99.5% (equivalently, the
unmatched-row rate exceeds 0.5%); the error carries the unmatched-row
count, total count and rate, and no merged table is returned in that case;
with coverage at least 99.5% the merge returns the joined table. -/
theorem strict_merge_error_iff_coverage (dataset : List String)
    (features : List (String × FeatureRow))
    (hds : dataset.Nodup)
    (hfs : (features.map Prod.fst).Nodup)
    (hlab : ∀ p ∈ features, p.2.cluster_labels ≠ none) :
    ((∃ e, merge_features_with_dataset dataset features true = .error e) ↔
      coverage dataset.toFinset ((features.map Prod.fst).toFinset)
        < MIN_COVERAGE_PERCENT) ∧
    (∀ e, merge_features_with_dataset dataset features true = .error e →
      e.unmatched_count
        = (dataset.filter fun i => i ∉ features.map Prod.fst).length ∧
      e.total_count = dataset.length ∧
      e.unmatched_rate = (e.unmatched_count : ℚ) / (e.total_count : ℚ)) ∧
    (MIN_COVERAGE_PERCENT ≤
        coverage dataset.toFinset ((features.map Prod.fst).toFinset) →
      merge_features_with_dataset dataset features true
        = .ok (leftJoin dataset features)) := by
  have hL1 := leftJoin_length dataset features hfs
  have hL2 := leftJoin_unmatched_count dataset features hlab
  have huk := filter_not_mem_length dataset (features.map Prod.fst)
  have hkle : (dataset.filter fun i => i ∈ features.map Prod.fst).length
      ≤ dataset.length := List.length_filter_le _ _
  have hcard := nodup_inter_card dataset (features.map Prod.fst) hds
  have hcardn := List.toFinset_card_of_nodup hds
  have hform : merge_features_with_dataset dataset features true
      = if ((if 0 < dataset.length
              then ((dataset.filter fun i =>
                      i ∉ features.map Prod.fst).length : ℚ)
                    / (dataset.length : ℚ) else 0) > 5 / 1000)
        then .error ⟨(dataset.filter fun i =>
                        i ∉ features.map Prod.fst).length,
                     dataset.length,
                     if 0 < dataset.length
                     then ((dataset.filter fun i =>
                             i ∉ features.map Prod.fst).length : ℚ)
                          / (dataset.length : ℚ) else 0⟩
        else .ok (leftJoin dataset features) := by
    simp only [merge_features_with_dataset, hL1, hL2, eq_self_iff_true,
      true_and]
  have hiff : ((if 0 < dataset.length
        then ((dataset.filter fun i => i ∉ features.map Prod.fst).length : ℚ)
              / (dataset.length : ℚ) else 0) > 5 / 1000)
      ↔ coverage dataset.toFinset ((features.map Prod.fst).toFinset)
          < MIN_COVERAGE_PERCENT := by
    by_cases hne : dataset.length = 0
    · rw [if_neg (by omega)]
      have hds0 : dataset = [] := List.length_eq_zero.mp hne
      subst hds0
      rw [coverage]
      norm_num [MIN_COVERAGE_PERCENT]
    · have hn0 : 0 < dataset.length := by omega
      rw [if_pos hn0, coverage_eq_formula, hcard, hcardn]
      rw [if_neg (by
        rw [List.toFinset_eq_empty_iff]
        intro hc
        rw [hc] at hn0
        simp at hn0)]
      simp only [MIN_COVERAGE_PERCENT]
      exact rate_iff_coverage dataset.length
        (dataset.filter fun i => i ∈ features.map Prod.fst).length
        (dataset.filter fun i => i ∉ features.map Prod.fst).length
        hn0 (by omega)
  refine ⟨?_, ?_, ?_⟩
  · rw [hform]
    constructor
    · rintro ⟨e, he⟩
      by_cases hc : ((if 0 < dataset.length
          then ((dataset.filter fun i =>
                  i ∉ features.map Prod.fst).length : ℚ)
                / (dataset.length : ℚ) else 0) > 5 / 1000)
      · exact hiff.mp hc
      · rw [if_neg hc] at he
        exact absurd he (by simp)
    · intro h
      rw [if_pos (hiff.mpr h)]
      exact ⟨_, rfl⟩
  · intro e he
    rw [hform] at he
    by_cases hc : ((if 0 < dataset.length
        then ((dataset.filter fun i =>
                i ∉ features.map Prod.fst).length : ℚ)
              / (dataset.length : ℚ) else 0) > 5 / 1000)
    · rw [if_pos hc] at he
      obtain rfl := Except.error.inj he
      refine ⟨rfl, rfl, ?_⟩
      by_cases hn0 : 0 < dataset.length
      · simp only [if_pos hn0]
      · rw [if_neg hn0] at hc
        norm_num at hc
    · rw [if_neg hc] at he
      exact absurd he (by simp)
  · intro h
    rw [hform, if_neg]
    intro hc
    exact absurd (hiff.mp hc) (not_lt.mpr h)

theorem strict_merge_error_iff_coverage_witness :
    (["a", "b"] : List String).Nodup ∧
    ([("a", (⟨some 1, none, none⟩ : FeatureRow)),
      ("b", ⟨some 2, none, none⟩)].map Prod.fst).Nodup ∧
    merge_features_with_dataset ["a", "b"]
        [("a", ⟨some 1, none, none⟩), ("b", ⟨some 2, none, none⟩)] true
      = .ok (leftJoin ["a", "b"]
          [("a", ⟨some 1, none, none⟩), ("b", ⟨some 2, none, none⟩)]) := by
  refine ⟨by decide, by decide, ?_⟩
  refine (strict_merge_error_iff_coverage ["a", "b"]
    [("a", ⟨some 1, none, none⟩), ("b", ⟨some 2, none, none⟩)]
    (by decide) (by decide) (by decide)).2.2 ?_
  rw [coverage_eq_formula]
  rw [if_neg (by decide)]
  have h1 : (((["a", "b"] : List String).toFinset ∩
      ([("a", (⟨some 1, none, none⟩ : FeatureRow)),
        ("b", ⟨some 2, none, none⟩)].map Prod.fst).toFinset)).card = 2 := by
    decide
  have h2 : (["a", "b"] : List String).toFinset.card = 2 := by decide
  rw [h1, h2]
  norm_num [MIN_COVERAGE_PERCENT]

/-- C1 counterexample to the claim as stated: a feature bundle that
matches every dataset identifier but whose cluster-label value is NaN has
coverage 100%, yet the strict-mode merge raises (the unmatched count is
taken from `isna` on the joined `cluster_labels` column). -/
theorem strict_merge_counterexample :
    MIN_COVERAGE_PERCENT ≤
      coverage (["a"] : List String).toFinset
        (([("a", (⟨none, none, none⟩ : FeatureRow))].map Prod.fst).toFinset) ∧
    ∃ e, merge_features_with_dataset ["a"] [("a", ⟨none, none, none⟩)] true
        = .error e := by
  constructor
  · rw [coverage_eq_formula, if_neg (by decide)]
    have h1 : (((["a"] : List String).toFinset ∩
        ([("a", (⟨none, none, none⟩ : FeatureRow))].map Prod.fst).toFinset)).card
        = 1 := by decide
    have h2 : (["a"] : List String).toFinset.card = 1 := by decide
    rw [h1, h2]
    norm_num [MIN_COVERAGE_PERCENT]
  · have hJ : leftJoin ["a"] [("a", (⟨none, none, none⟩ : FeatureRow))]
        = [("a", ⟨none, none, none⟩)] := by decide
    simp only [merge_features_with_dataset, hJ]
    have hF : ([("a", (⟨none, none, none⟩ : FeatureRow))].filter
        fun p => p.2.cluster_labels = none) = [("a", ⟨none, none, none⟩)] := by
      decide
    rw [hF]
    rw [if_pos (by norm_num)]
    exact ⟨_, rfl⟩

/-! ## Content-derived identifiers (`data_loader_fixed._derive_id_from_content`)

A dataset row as seen by `_derive_id_from_content`: each content column is
`none` when absent from the row's index, otherwise `some` of its
stringified value.  `name` is `str(row.name)`, the row's index label. -/

structure DatasetRow where
  title : Option String
  titleU : Option String        -- column 'Title'
  ty : Option String            -- column 'type'
  tyU : Option String           -- column 'Type'
  drivingForce : Option String  -- column 'Driving Force'
  steep : Option String
  steepU : Option String        -- column 'STEEP'
  source : Option String
  sourceU : Option String       -- column 'Source'
  name : String
deriving Repr, DecidableEq

/-- `if 'a' in row.index: parts.append(row['a']) elif 'b' in row.index:
parts.append(row['b'])`. -/
def pickField (a b : Option String) : List String :=
  match a, b with
  | some x, _ => [x]
  | none, some x => [x]
  | none, none => []

/-- Three-way variant for `type` / `Type` / `Driving Force`. -/
def pickField3 (a b c : Option String) : List String :=
  match a, b, c with
  | some x, _, _ => [x]
  | none, some x, _ => [x]
  | none, none, some x => [x]
  | none, none, none => []

/-- The `content_parts` list assembled by `_derive_id_from_content`. -/
def contentParts (row : DatasetRow) : List String :=
  pickField row.title row.titleU ++
  pickField3 row.ty row.tyU row.drivingForce ++
  pickField row.steep row.steepU ++
  pickField row.source row.sourceU

/-- `_derive_id_from_content`: join the content parts with `|`, fall back
to `str(row.name)` when no content field is present, and take the first 16
hex characters of the SHA-256 digest. -/
def derive_id_from_content (row : DatasetRow) : String :=
  let parts := contentParts row
  let parts := if parts.isEmpty then [row.name] else parts
  (sha256Hex (utf8Bytes (String.intercalate "|" parts))).take 16

theorem pickField_eq_nil_iff (a b : Option String) :
    pickField a b = [] ↔ a = none ∧ b = none := by
  cases a <;> cases b <;> simp [pickField]

theorem pickField3_eq_nil_iff (a b c : Option String) :
    pickField3 a b c = [] ↔ a = none ∧ b = none ∧ c = none := by
  cases a <;> cases b <;> cases c <;> simp [pickField3]

/-- C6 (amended): when at least one content field is present, the derived
identifier is a pure function of the content fields (title, type/driving
force, steep, source) alone — the row's index label plays no part. -/
theorem derive_id_pure_function_of_content (r1 r2 : DatasetRow)
    (ht : r1.title = r2.title) (htu : r1.titleU = r2.titleU)
    (hy : r1.ty = r2.ty) (hyu : r1.tyU = r2.tyU)
    (hdf : r1.drivingForce = r2.drivingForce)
    (hs : r1.steep = r2.steep) (hsu : r1.steepU = r2.steepU)
    (ho : r1.source = r2.source) (hou : r1.sourceU = r2.sourceU)
    (hne : ¬ (contentParts r1).isEmpty) :
    derive_id_from_content r1 = derive_id_from_content r2 := by
  have hparts : contentParts r1 = contentParts r2 := by
    unfold contentParts
    rw [ht, htu, hy, hyu, hdf, hs, hsu, ho, hou]
  have hne2 : (contentParts r2).isEmpty = false := by
    rw [← hparts]
    simpa using hne
  simp only [derive_id_from_content, hparts, hne2, Bool.false_eq_true,
    if_false]

theorem derive_id_pure_function_of_content_witness :
    (⟨some "AI", none, none, none, none, none, none, none, none,
        "0"⟩ : DatasetRow).title
      = (⟨some "AI", none, none, none, none, none, none, none, none,
        "17"⟩ : DatasetRow).title ∧
    derive_id_from_content
        ⟨some "AI", none, none, none, none, none, none, none, none, "0"⟩
      = derive_id_from_content
        ⟨some "AI", none, none, none, none, none, none, none, none, "17"⟩ :=
  ⟨rfl, derive_id_pure_function_of_content _ _ rfl rfl rfl rfl rfl rfl rfl
    rfl rfl (by decide)⟩

set_option maxRecDepth 100000 in
set_option maxHeartbeats 2000000 in
/-- C6 counterexample to the claim as stated: for a row with none of the
content columns, `_derive_id_from_content` falls back to `str(row.name)`,
the row's index position — two rows with identical (absent) content fields
at positions 0 and 1 receive different identifiers. -/
theorem derive_id_position_counterexample :
    (⟨none, none, none, none, none, none, none, none, none,
        "0"⟩ : DatasetRow).title
      = (⟨none, none, none, none, none, none, none, none, none,
        "1"⟩ : DatasetRow).title ∧
    derive_id_from_content
        ⟨none, none, none, none, none, none, none, none, none, "0"⟩
      ≠ derive_id_from_content
        ⟨none, none, none, none, none, none, none, none, none, "1"⟩ :=
  ⟨rfl, by decide⟩

/-! ## Direct positional-correspondence loader
(`OrionRebuildWix-clean/backend/orion/data_loader.py`, `ORIONDataLoader`)

The dataset is represented by its row identifiers (the loader only uses
the row count); the feature bundle by the optional arrays of the pickle
mapping, each `none` when the key is absent. -/

structure CleanFeatures where
  cluster_labels : Option (List Int)
  cluster_titles : Option (List (Int × String))
  tsne_x : Option (List ℚ)
  tsne_y : Option (List ℚ)
  tsne_z : Option (List ℚ)
  umap2d_x : Option (List ℚ)
  umap2d_y : Option (List ℚ)
deriving Repr

/-- `ORIONDataLoader.validate_coverage`: coverage is computed from the
dataset row count and the `cluster_labels` array length only (100 when
equal, otherwise `min/dataset·100`, 0 for an empty dataset); in strict
mode coverage below 99.5 raises.  Returns `(coverage, matched, total)`. -/
def validate_coverage (dataset : List String) (features : CleanFeatures)
    (strict_mode : Bool) : Except String (ℚ × Nat × Nat) :=
  let dataset_size := dataset.length
  let features_size := (features.cluster_labels.getD []).length
  let matched := if dataset_size = features_size then dataset_size
                 else min dataset_size features_size
  let cov : ℚ :=
    if dataset_size = features_size then 100
    else if 0 < dataset_size then
      (matched : ℚ) / (dataset_size : ℚ) * 100
    else 0
  if strict_mode ∧ cov < 995 / 10 then
    .error "Coverage below required 99.5% in strict mode"
  else
    .ok (cov, matched, dataset_size)

/-- One row of the directly merged table. -/
structure CleanMergedRow where
  id : String
  cluster : Option Int
  tsne_x : Option ℚ
  tsne_y : Option ℚ
  tsne_z : Option ℚ
  umap2d_x : Option ℚ
  umap2d_y : Option ℚ
  cluster_title : Option String
deriving Repr, DecidableEq

/-- Row `i` of the merged table: features are applied by row ordinal
(`merged.loc[i, col] = feature_data[i]` for `i < len(feature_data)`);
the cluster title is looked up from the cluster-title mapping. -/
def mergedRowAt (features : CleanFeatures) (id : String) (i : Nat) :
    CleanMergedRow :=
  let cluster := (features.cluster_labels.getD []).get? i
  { id := id
    cluster := cluster
    tsne_x := (features.tsne_x.getD []).get? i
    tsne_y := (features.tsne_y.getD []).get? i
    tsne_z := (features.tsne_z.getD []).get? i
    umap2d_x := (features.umap2d_x.getD []).get? i
    umap2d_y := (features.umap2d_y.getD []).get? i
    cluster_title := match features.cluster_titles with
      | some ts => cluster.bind fun c => (ts.find? fun p => p.1 = c).map Prod.snd
      | none => none }

def buildMergedRows (features : CleanFeatures) :
    List String → Nat → List CleanMergedRow
  | [], _ => []
  | id :: rest, i => mergedRowAt features id i :: buildMergedRows features rest (i + 1)

/-- `ORIONDataLoader.merge_data`: validate coverage first (propagating its
strict-mode error), then build the merged table by direct row
correspondence.  When `cluster_labels` is absent the later accesses to the
`Cluster` column (`merged['Cluster']`) raise a `KeyError`, modelled as an
error. -/
def merge_data (dataset : List String) (features : CleanFeatures)
    (strict_mode : Bool) : Except String (List CleanMergedRow) :=
  match validate_coverage dataset features strict_mode with
  | .error e => .error e
  | .ok _ =>
    match features.cluster_labels with
    | none => .error "KeyError: Cluster"
    | some _ => .ok (buildMergedRows features dataset 0)

theorem buildMergedRows_length (features : CleanFeatures) :
    ∀ (ds : List String) (i : Nat),
      (buildMergedRows features ds i).length = ds.length := by
  intro ds
  induction ds with
  | nil => intro i; rfl
  | cons id rest ih =>
    intro i
    simp [buildMergedRows, ih]

/-- C7 (amended): in strict mode the direct-correspondence merge fails
before any merged table is produced exactly when the length-based coverage
falls below 99.5% — in particular a length mismatch is fatal only then; in
non-strict mode (and for strict-mode mismatches with coverage at least
99.5%) a merged table with one row per dataset row is returned whenever
the `cluster_labels` array is present. -/
theorem merge_data_mismatch (dataset : List String)
    (features : CleanFeatures) :
    ((dataset.length ≠ (features.cluster_labels.getD []).length →
      (if 0 < dataset.length then
        ((min dataset.length (features.cluster_labels.getD []).length : ℚ)
          / (dataset.length : ℚ)) * 100 else 0) < 995 / 10 →
      merge_data dataset features true
        = .error "Coverage below required 99.5% in strict mode")) ∧
    (features.cluster_labels.isSome →
      merge_data dataset features false
        = .ok (buildMergedRows features dataset 0) ∧
      (buildMergedRows features dataset 0).length = dataset.length) ∧
    (features.cluster_labels.isSome →
      dataset.length ≠ (features.cluster_labels.getD []).length →
      ¬ ((if 0 < dataset.length then
        ((min dataset.length (features.cluster_labels.getD []).length : ℚ)
          / (dataset.length : ℚ)) * 100 else 0) < 995 / 10) →
      merge_data dataset features true
        = .ok (buildMergedRows features dataset 0) ∧
      (buildMergedRows features dataset 0).length = dataset.length) := by
  refine ⟨?_, ?_, ?_⟩
  · intro hmis hlow
    have hval : validate_coverage dataset features true
        = .error "Coverage below required 99.5% in strict mode" := by
      simp only [validate_coverage, if_neg hmis]
      rw [if_pos]
      refine ⟨by trivial, ?_⟩
      by_cases hz : 0 < dataset.length
      · rw [if_pos hz]
        rw [if_pos hz] at hlow
        simpa using hlow
      · rw [if_neg hz]
        norm_num
    simp only [merge_data, hval]
  · intro hlab
    have hval : ∀ r, validate_coverage dataset features false ≠ .error r := by
      intro r
      simp only [validate_coverage]
      rw [if_neg (by simp)]
      simp
    constructor
    · obtain ⟨ls, hls⟩ := Option.isSome_iff_exists.mp hlab
      simp only [merge_data, validate_coverage]
      rw [if_neg (by simp)]
      simp only [hls]
    · exact buildMergedRows_length features dataset 0
  · intro hlab hmis hhigh
    obtain ⟨ls, hls⟩ := Option.isSome_iff_exists.mp hlab
    refine ⟨?_, buildMergedRows_length features dataset 0⟩
    have hval : ∃ v, validate_coverage dataset features true = .ok v := by
      simp only [validate_coverage, if_neg hmis]
      rw [if_neg]
      · exact ⟨_, rfl⟩
      · intro hc
        exact hhigh (by simpa using hc.2)
    obtain ⟨v, hv⟩ := hval
    simp only [merge_data, hv, hls]

set_option maxRecDepth 100000 in
theorem merge_data_mismatch_witness :
    ((["a"] : List String).length
        ≠ (((⟨some [], none, none, none, none, none, none⟩ :
            CleanFeatures).cluster_labels.getD []).length) ∧
      merge_data ["a"] ⟨some [], none, none, none, none, none, none⟩ true
        = .error "Coverage below required 99.5% in strict mode") ∧
    (merge_data ["a", "b"] ⟨some [7], none, none, none, none, none, none⟩ false
        = .ok (buildMergedRows
            ⟨some [7], none, none, none, none, none, none⟩ ["a", "b"] 0) ∧
      (buildMergedRows (⟨some [7], none, none, none, none, none, none⟩ :
          CleanFeatures) ["a", "b"] 0).length = (["a", "b"] : List String).length) ∧
    ((List.replicate 200 "x").length
        ≠ (((⟨some (List.replicate 199 (0 : Int)), none, none, none, none,
            none, none⟩ : CleanFeatures).cluster_labels.getD []).length) ∧
      merge_data (List.replicate 200 "x")
          ⟨some (List.replicate 199 (0 : Int)), none, none, none, none,
            none, none⟩ true
        = .ok (buildMergedRows
            ⟨some (List.replicate 199 (0 : Int)), none, none, none, none,
              none, none⟩ (List.replicate 200 "x") 0)) :=
  ⟨⟨by decide,
    (merge_data_mismatch ["a"] ⟨some [], none, none, none, none, none, none⟩).1
      (by decide) (by norm_num)⟩,
   (merge_data_mismatch ["a", "b"]
      ⟨some [7], none, none, none, none, none, none⟩).2.1 (by decide),
   by simp,
   ((merge_data_mismatch (List.replicate 200 "x")
      ⟨some (List.replicate 199 (0 : Int)), none, none, none, none,
        none, none⟩).2.2 (by rfl) (by simp)
      (by norm_num [min_def])).1⟩

/-- C7 counterexample to the claim as stated: dataset of 2 rows against a
feature array of length 1 (a length mismatch) still returns a merged
table in non-strict mode — row 0 carries the feature, row 1 is blank —
rather than failing immediately. -/
theorem merge_data_mismatch_counterexample :
    (["a", "b"] : List String).length
      ≠ (((⟨some [7], none, none, none, none, none, none⟩ :
          CleanFeatures).cluster_labels.getD []).length) ∧
    merge_data ["a", "b"] ⟨some [7], none, none, none, none, none, none⟩ false
      = .ok [⟨"a", some 7, none, none, none, none, none, none⟩,
             ⟨"b", none, none, none, none, none, none, none⟩] := by
  refine ⟨by decide, ?_⟩
  simp only [merge_data, validate_coverage]
  rw [if_neg (by simp)]
  decide

/-- The loader's environment: the dataset file (`none` when missing, else
its row identifiers), the features file (`none` when missing), and the
strict-mode flag from `STRICT_FEATURES`. -/
structure LoaderEnv where
  dataset : Option (List String)
  features : Option CleanFeatures
  strict_mode : Bool

/-- `ORIONDataLoader.load_dataset`: raises `FileNotFoundError` when the
dataset file is absent (sequential-id synthesis does not affect the row
count used downstream). -/
def load_dataset (env : LoaderEnv) : Except String (List String) :=
  match env.dataset with
  | none => .error "Dataset file not found"
  | some ds => .ok ds

/-- `ORIONDataLoader.load_features`: raises when the features file is
absent, and in strict mode when `cluster_labels` is missing. -/
def load_features (env : LoaderEnv) : Except String CleanFeatures :=
  match env.features with
  | none => .error "Features file not found"
  | some fs =>
    if env.strict_mode ∧ fs.cluster_labels.isNone then
      .error "Missing required features in strict mode"
    else .ok fs

/-- The dictionary returned by `get_integrity_status`; optional fields are
absent (`none`) in the error-shaped dictionary. -/
structure IntegrityStatus where
  status : String
  coverage : Option ℚ
  matched : Option Nat
  total_dataset : Option Nat
  total_features : Option Nat
  strict_mode : Bool
  error : Option String

/-- The error dictionary `{"status": "error", "error": ..., "strict_mode": ...}`. -/
def errStatus (env : LoaderEnv) (e : String) : IntegrityStatus :=
  { status := "error", coverage := none, matched := none,
    total_dataset := none, total_features := none,
    strict_mode := env.strict_mode, error := some e }

/-- The body of `get_integrity_status`'s `try` block: load the dataset
and features, then validate coverage, propagating the first exception. -/
def integrityPipeline (env : LoaderEnv) :
    Except String (CleanFeatures × ℚ × Nat × Nat) :=
  match load_dataset env with
  | .error e => .error e
  | .ok ds =>
    match load_features env with
    | .error e => .error e
    | .ok fs =>
      match validate_coverage ds fs env.strict_mode with
      | .error e => .error e
      | .ok (cov, matched, total) => .ok (fs, cov, matched, total)

/-- `ORIONDataLoader.get_integrity_status`: run the load/validate pipeline
inside a catch-all; any exception becomes a `status = "error"` dictionary,
success yields `"ok"` when coverage is at least 99.5 or strict mode is
off, `"fail"` otherwise. -/
def get_integrity_status (env : LoaderEnv) : IntegrityStatus :=
  match integrityPipeline env with
  | .error e => errStatus env e
  | .ok (fs, cov, matched, total) =>
    { status := if 995 / 10 ≤ cov ∨ env.strict_mode = false
                then "ok" else "fail",
      coverage := some cov, matched := some matched,
      total_dataset := some total,
      total_features := some (fs.cluster_labels.getD []).length,
      strict_mode := env.strict_mode, error := none }

theorem integrityPipeline_ok (env : LoaderEnv) (fs : CleanFeatures)
    (cov : ℚ) (m t : Nat)
    (hp : integrityPipeline env = .ok (fs, cov, m, t)) :
    ∃ ds, validate_coverage ds fs env.strict_mode = .ok (cov, m, t) := by
  simp only [integrityPipeline] at hp
  split at hp
  · exact absurd hp (by simp)
  · rename_i ds hds
    split at hp
    · exact absurd hp (by simp)
    · rename_i fs' hfs
      split at hp
      · exact absurd hp (by simp)
      · rename_i cov' m' t' hv
        have h2 := Except.ok.inj hp
        simp only [Prod.ext_iff] at h2
        obtain ⟨h3, h4, h5, h6⟩ := h2
        subst h3; subst h4; subst h5; subst h6
        exact ⟨ds, hv⟩

theorem ite_error_ok_cond {E A : Type} (c : Prop) [Decidable c] (e : E)
    (a m : A) (h : (if c then Except.error e else Except.ok a) = .ok m) :
    ¬ c ∧ m = a := by
  by_cases hc : c
  · rw [if_pos hc] at h
    exact absurd h (by simp)
  · rw [if_neg hc] at h
    exact ⟨hc, (Except.ok.inj h).symm⟩

theorem validate_coverage_ok_strict (ds : List String) (fs : CleanFeatures)
    (cov : ℚ) (m t : Nat)
    (h : validate_coverage ds fs true = .ok (cov, m, t)) :
    995 / 10 ≤ cov := by
  simp only [validate_coverage] at h
  obtain ⟨hc, hma⟩ := ite_error_ok_cond _ _ _ _ h
  have hcv := congrArg Prod.fst hma
  simp only at hcv
  rw [hcv]
  by_contra hlt
  exact hc ⟨trivial, not_le.mp hlt⟩

/-- C9: the integrity-status query is a total function — every internal
failure (missing file, strict-mode schema or coverage violation) is caught
and reported as a `status = "error"` dictionary carrying the message — and
on success the status is `"ok"` exactly when coverage is at least 99.5 or
strict mode is off (the `"fail"` branch is unreachable, because in strict
mode a coverage shortfall already raises inside `validate_coverage`). -/
theorem get_integrity_status_spec (env : LoaderEnv) :
    ((get_integrity_status env).status = "error" ∧
      ∃ e, (get_integrity_status env).error = some e) ∨
    ((get_integrity_status env).status = "ok" ∧
      (get_integrity_status env).error = none ∧
      ∃ cov, (get_integrity_status env).coverage = some cov ∧
        (995 / 10 ≤ cov ∨ env.strict_mode = false)) := by
  unfold get_integrity_status
  rcases hp : integrityPipeline env with e | r
  · exact Or.inl ⟨rfl, e, rfl⟩
  · obtain ⟨fs, cov, matched, total⟩ := r
    right
    have hcond : 995 / 10 ≤ cov ∨ env.strict_mode = false := by
      by_cases hs : env.strict_mode = true
      · obtain ⟨ds, hv⟩ := integrityPipeline_ok env fs cov matched total hp
        rw [hs] at hv
        exact Or.inl (validate_coverage_ok_strict ds fs cov matched total hv)
      · exact Or.inr (by revert hs; cases env.strict_mode <;> simp)
    refine ⟨?_, rfl, cov, rfl, hcond⟩
    simp only [if_pos hcond]

/-- C10: in the direct-correspondence variant, coverage depends on the
dataset row count and the cluster-label array length only — never on
identifier values: equal-length datasets validate identically, equal
lengths give exactly 100, and otherwise the coverage is
`min(dataset, features)/dataset × 100` (0 for an empty dataset with a
non-empty feature array). -/
theorem validate_coverage_lengths_only (dataset dataset' : List String)
    (features : CleanFeatures) (strict : Bool) :
    (dataset.length = dataset'.length →
      validate_coverage dataset features strict
        = validate_coverage dataset' features strict) ∧
    validate_coverage dataset features false
      = .ok
        (if dataset.length = (features.cluster_labels.getD []).length then 100
         else if 0 < dataset.length then
           ((min dataset.length (features.cluster_labels.getD []).length : ℚ)
             / (dataset.length : ℚ)) * 100
         else 0,
         if dataset.length = (features.cluster_labels.getD []).length
         then dataset.length
         else min dataset.length (features.cluster_labels.getD []).length,
         dataset.length) := by
  constructor
  · intro h
    simp only [validate_coverage, h]
  · simp only [validate_coverage]
    rw [if_neg (by simp)]
    by_cases heq : dataset.length = (features.cluster_labels.getD []).length
    · simp only [if_pos heq]
    · simp only [if_neg heq, Nat.cast_min]

theorem validate_coverage_lengths_only_witness :
    (["a"] : List String).length = (["b"] : List String).length ∧
    validate_coverage ["a"] ⟨some [7], none, none, none, none, none, none⟩ true
      = validate_coverage ["b"]
          ⟨some [7], none, none, none, none, none, none⟩ true :=
  ⟨rfl, (validate_coverage_lengths_only ["a"] ["b"]
    ⟨some [7], none, none, none, none, none, none⟩ true).1 rfl⟩

/-! ## Parity checker (`parity_checker.py`)

Figure-description objects (`fig.to_dict()`) are JSON-like values:
strings, numbers (floats modelled as `ℚ`), booleans, `None`, lists and
dictionaries (association lists of string keys). -/

inductive FigVal where
  | str (s : String)
  | num (q : ℚ)
  | boolv (b : Bool)
  | null
  | arr (xs : List FigVal)
  | obj (kvs : List (String × FigVal))
deriving Repr

/-- Key-order comparison used by `sorted(obj.items())` and
`json.dumps(..., sort_keys=True)` (dictionary keys are unique, so tuple
comparison never reaches the values). -/
def pairLE (a b : String × FigVal) : Bool := a.1 ≤ b.1

mutual
/-- `normalize_figure_dict.recursive_sort`: recursively sort all mapping
keys and process list elements.  (The Python code sorts the items first
and then recurses into the values; since recursion never changes keys and
the sort is stable and compares keys only, sorting after the recursion
yields the same result.) -/
def recursive_sort : FigVal → FigVal
  | .obj kvs => .obj ((sortValues kvs).mergeSort pairLE)
  | .arr xs => .arr (sortList xs)
  | .str s => .str s
  | .num q => .num q
  | .boolv b => .boolv b
  | .null => .null

def sortValues : List (String × FigVal) → List (String × FigVal)
  | [] => []
  | (k, v) :: rest => (k, recursive_sort v) :: sortValues rest

def sortList : List FigVal → List FigVal
  | [] => []
  | v :: rest => recursive_sort v :: sortList rest
end

mutual
/-- Validity of a figure value as a Python object: every dictionary has
pairwise-distinct keys. -/
def figWF : FigVal → Bool
  | .obj kvs => decide ((kvs.map Prod.fst).Nodup) && figWFPairs kvs
  | .arr xs => figWFList xs
  | _ => true

def figWFPairs : List (String × FigVal) → Bool
  | [] => true
  | (_, v) :: rest => figWF v && figWFPairs rest

def figWFList : List FigVal → Bool
  | [] => true
  | v :: rest => figWF v && figWFList rest
end

/-- The non-deterministic top-level fields popped by
`normalize_figure_dict`. -/
def fields_to_remove : List String := ["uid", "meta", "_plotly_private"]

/-- `normalize_figure_dict`: recursively sort, then pop the known
non-deterministic fields from the top level. -/
def normalize_figure_dict (fig : FigVal) : FigVal :=
  match recursive_sort fig with
  | .obj kvs => .obj (kvs.filter fun p => p.1 ∉ fields_to_remove)
  | v => v

/-- Four lowercase hex digits. -/
def hex4 (n : Nat) : String :=
  String.mk [hexChar ((n >>> 12) % 16), hexChar ((n >>> 8) % 16),
             hexChar ((n >>> 4) % 16), hexChar (n % 16)]

/-- JSON string escaping (`json.dumps` default `ensure_ascii=True`;
characters above the BMP are abstracted as a single `\u` escape). -/
def jsonEscapeChar (c : Char) : String :=
  if c = '"' then "\\\""
  else if c = '\\' then "\\\\"
  else if c.toNat < 0x20 ∨ 0x7e < c.toNat then "\\u" ++ hex4 c.toNat
  else String.singleton c

def jsonStr (s : String) : String :=
  "\"" ++ String.join (s.data.map jsonEscapeChar) ++ "\""

mutual
/-- `json.dumps(value, sort_keys=True, separators=(',', ':'))`.  Python's
float `repr` is abstracted by `toString` on `ℚ`.  Mapping entries are
rendered and then sorted by key (equivalent to sorting the unique keys
first). -/
def dumps : FigVal → String
  | .str s => jsonStr s
  | .num q => toString q
  | .boolv b => if b then "true" else "false"
  | .null => "null"
  | .arr xs => "[" ++ String.intercalate "," (dumpsList xs) ++ "]"
  | .obj kvs =>
    "\x7b" ++ String.intercalate ","
      (((dumpsPairs kvs).mergeSort (fun a b => a.1 ≤ b.1)).map
        fun p => jsonStr p.1 ++ ":" ++ p.2) ++ "\x7d"

def dumpsList : List FigVal → List String
  | [] => []
  | x :: xs => dumps x :: dumpsList xs

def dumpsPairs : List (String × FigVal) → List (String × String)
  | [] => []
  | (k, v) :: rest => (k, dumps v) :: dumpsPairs rest
end

/-- `calculate_figure_hash`: SHA-256 of the canonical JSON serialization
of the normalized figure. -/
def calculate_figure_hash (fig : FigVal) : String :=
  sha256Hex (utf8Bytes (dumps (normalize_figure_dict fig)))

/-- Dictionary lookup `d[key]` (`null` default for the impossible missing
case; `find_first_difference` only looks up common keys). -/
def lookupD (kvs : List (String × FigVal)) (k : String) : FigVal :=
  ((kvs.find? fun p => p.1 = k).map Prod.snd).getD .null

theorem sizeOf_lookupD (kvs : List (String × FigVal)) (k : String) :
    sizeOf (lookupD kvs k) ≤ sizeOf kvs := by
  rcases hf : kvs.find? fun p => p.1 = k with _ | p
  · simp only [lookupD, hf, Option.map_none', Option.getD_none]
    cases kvs with
    | nil => simp
    | cons a l => simp; omega
  · simp only [lookupD, hf, Option.map_some', Option.getD_some]
    have hm : p ∈ kvs := List.mem_of_find?_eq_some hf
    have h1 : sizeOf p < sizeOf kvs := List.sizeOf_lt_of_mem hm
    obtain ⟨a, b⟩ := p
    simp at h1 ⊢
    omega

mutual
/-- `find_first_difference`: lock-step walk of two (normalized) values;
reports the first type mismatch, missing key, list-length mismatch or
leaf-value mismatch with a dotted/bracketed path.  (Python reports an
arbitrary element of the missing-key set; the message here carries the
path only.)  Common keys are visited in sorted order. -/
def find_first_difference : FigVal → FigVal → String → Option String
  | .obj kvs1, .obj kvs2, path =>
    let keys1 := kvs1.map Prod.fst
    let keys2 := kvs2.map Prod.fst
    if ¬ (keys1.all (· ∈ keys2) ∧ keys2.all (· ∈ keys1)) then
      if (keys1.filter (· ∉ keys2)) ≠ [] then
        some ("Key missing in second dict at " ++ path)
      else
        some ("Key missing in first dict at " ++ path)
    else
      ffdKeys (((keys1.filter (· ∈ keys2)).dedup).mergeSort (· ≤ ·))
        kvs1 kvs2 path
  | .arr xs, .arr ys, path =>
    if xs.length ≠ ys.length then
      some ("List length mismatch at " ++ path)
    else ffdList xs ys 0 path
  | .str a, .str b, path =>
    if a = b then none else some ("Value mismatch at " ++ path)
  | .num a, .num b, path =>
    if a = b then none else some ("Value mismatch at " ++ path)
  | .boolv a, .boolv b, path =>
    if a = b then none else some ("Value mismatch at " ++ path)
  | .null, .null, _ => none
  | _, _, path => some ("Type mismatch at " ++ path)
termination_by a _ _ => (sizeOf a, 0)
decreasing_by
  all_goals simp_wf
  · apply Prod.Lex.left
    omega
  · apply Prod.Lex.left
    omega

def ffdKeys : List String → List (String × FigVal) →
    List (String × FigVal) → String → Option String
  | [], _, _, _ => none
  | k :: ks, kvs1, kvs2, path =>
    match find_first_difference (lookupD kvs1 k) (lookupD kvs2 k)
        (if path = "" then k else path ++ "." ++ k) with
    | some d => some d
    | none => ffdKeys ks kvs1 kvs2 path
termination_by ks kvs1 _ _ => (sizeOf kvs1, ks.length + 1)
decreasing_by
  all_goals simp_wf
  · have h := sizeOf_lookupD kvs1 k
    rcases Nat.lt_or_ge (sizeOf (lookupD kvs1 k)) (sizeOf kvs1) with h2 | h2
    · exact Prod.Lex.left _ _ h2
    · have h3 : sizeOf (lookupD kvs1 k) = sizeOf kvs1 := by omega
      rw [h3]
      exact Prod.Lex.right _ (by omega)
  · exact Prod.Lex.right _ (by omega)

def ffdList : List FigVal → List FigVal → Nat → String → Option String
  | [], _, _, _ => none
  | x :: xs, ys, i, path =>
    match find_first_difference x (ys.getD i .null)
        (path ++ "[" ++ toString i ++ "]") with
    | some d => some d
    | none => ffdList xs ys (i + 1) path
termination_by xs _ _ _ => (sizeOf xs, 1)
decreasing_by
  all_goals simp_wf
  · apply Prod.Lex.left
    omega
  · apply Prod.Lex.left
    omega
end

/-- The result dictionary of `compare_figure_parity`. -/
structure ParityResult where
  parity_ok : Bool
  hash_regular : String
  hash_baseline : String
  timestamp : String
  first_difference : Option String
deriving Repr

/-- `compare_figure_parity`: hash both figures, compare; the
first-difference walk is performed only when the hashes differ. -/
def compare_figure_parity (fig1 fig2 : FigVal) (now : String) :
    ParityResult :=
  let hash1 := calculate_figure_hash fig1
  let hash2 := calculate_figure_hash fig2
  let parity_ok := hash1 == hash2
  { parity_ok := parity_ok
    hash_regular := hash1
    hash_baseline := hash2
    timestamp := now
    first_difference :=
      if parity_ok then none
      else find_first_difference (normalize_figure_dict fig1)
             (normalize_figure_dict fig2) "" }

/-! ### C5: comparison is invariant under mapping key order -/

/-- Structural identity up to mapping key order: congruence on lists and
mapping entries, reordering of mapping entries, closed under
transitivity. -/
inductive FigEquiv : FigVal → FigVal → Prop
  | refl (v : FigVal) : FigEquiv v v
  | arrCons {x y : FigVal} {xs ys : List FigVal} :
      FigEquiv x y → FigEquiv (.arr xs) (.arr ys) →
      FigEquiv (.arr (x :: xs)) (.arr (y :: ys))
  | objCons {k : String} {v v' : FigVal} {kvs kvs' : List (String × FigVal)} :
      FigEquiv v v' → FigEquiv (.obj kvs) (.obj kvs') →
      FigEquiv (.obj ((k, v) :: kvs)) (.obj ((k, v') :: kvs'))
  | objPerm {kvs kvs' : List (String × FigVal)} :
      kvs.Perm kvs' → FigEquiv (.obj kvs) (.obj kvs')
  | trans {a b c : FigVal} : FigEquiv a b → FigEquiv b c → FigEquiv a c

theorem sortValues_eq_map (l : List (String × FigVal)) :
    sortValues l = l.map fun p => (p.1, recursive_sort p.2) := by
  induction l with
  | nil => rfl
  | cons p rest ih =>
    obtain ⟨k, v⟩ := p
    simp [sortValues, ih]

theorem sortValues_map_fst (l : List (String × FigVal)) :
    (sortValues l).map Prod.fst = l.map Prod.fst := by
  rw [sortValues_eq_map]
  simp [List.map_map, Function.comp]

theorem figWFPairs_eq_all (l : List (String × FigVal)) :
    figWFPairs l = l.all fun p => figWF p.2 := by
  induction l with
  | nil => rfl
  | cons p rest ih =>
    obtain ⟨k, v⟩ := p
    simp [figWFPairs, ih]

theorem pairLE_trans : ∀ a b c : String × FigVal,
    pairLE a b = true → pairLE b c = true → pairLE a c = true := by
  intro a b c h1 h2
  simp only [pairLE, decide_eq_true_eq] at *
  exact le_trans h1 h2

theorem pairLE_total : ∀ a b : String × FigVal,
    (pairLE a b || pairLE b a) = true := by
  intro a b
  simp only [pairLE, Bool.or_eq_true, decide_eq_true_eq]
  exact le_total a.1 b.1

/-- Two lists of key-value pairs that are permutations of one another and
have pairwise-distinct keys sort identically. -/
theorem mergeSort_eq_of_perm_nodup (l₁ l₂ : List (String × FigVal))
    (hp : l₁.Perm l₂) (hnd : (l₁.map Prod.fst).Nodup) :
    l₁.mergeSort pairLE = l₂.mergeSort pairLE := by
  have hs1 := List.sorted_mergeSort pairLE_trans pairLE_total l₁
  have hs2 := List.sorted_mergeSort pairLE_trans pairLE_total l₂
  have hperm12 : (l₁.mergeSort pairLE).Perm (l₂.mergeSort pairLE) :=
    (List.mergeSort_perm l₁ pairLE).trans
      (hp.trans (List.mergeSort_perm l₂ pairLE).symm)
  have hnd1 : ((l₁.mergeSort pairLE).map Prod.fst).Nodup :=
    (((List.mergeSort_perm l₁ pairLE).map Prod.fst).nodup_iff).mpr hnd
  have hnd2 : ((l₂.mergeSort pairLE).map Prod.fst).Nodup :=
    ((hperm12.map Prod.fst).nodup_iff).mp hnd1
  have key_pairwise : ∀ l : List (String × FigVal),
      List.Pairwise (fun a b => pairLE a b = true) l →
      (l.map Prod.fst).Nodup →
      List.Pairwise (fun a b : String × FigVal => a.1 < b.1) l := by
    intro l hle hnd
    have hne : List.Pairwise (fun a b : String × FigVal => a.1 ≠ b.1) l :=
      (List.pairwise_map).mp hnd
    exact (hle.and hne).imp fun h =>
      lt_of_le_of_ne (by simpa [pairLE] using h.1) h.2
  haveI : IsAntisymm (String × FigVal) (fun a b => a.1 < b.1) :=
    ⟨fun a b h1 h2 => absurd h2 (lt_asymm h1)⟩
  exact List.eq_of_perm_of_sorted hperm12
    (key_pairwise _ hs1 hnd1) (key_pairwise _ hs2 hnd2)

/-- Key-order-equivalent well-formed figures have equal recursive sorts,
and equivalence preserves well-formedness. -/
theorem recursive_sort_eq_of_equiv {a b : FigVal} (h : FigEquiv a b) :
    figWF a = true → recursive_sort a = recursive_sort b ∧ figWF b = true := by
  induction h with
  | refl v => exact fun hw => ⟨rfl, hw⟩
  | @arrCons x y xs ys hxy hrest ihx ihr =>
    intro hw
    have hw' : figWF x = true ∧ figWFList xs = true := by
      have h0 := hw
      simp only [figWF, figWFList, Bool.and_eq_true] at h0
      exact h0
    obtain ⟨hwx, hwxs⟩ := hw'
    obtain ⟨he1, hw1⟩ := ihx hwx
    obtain ⟨he2, hw2⟩ := ihr (by simp only [figWF]; exact hwxs)
    refine ⟨?_, ?_⟩
    · have h3 : sortList xs = sortList ys := by
        have h4 := he2
        simp only [recursive_sort] at h4
        exact FigVal.arr.inj h4
      simp only [recursive_sort, sortList]
      rw [he1, h3]
    · simp only [figWF, figWFList, Bool.and_eq_true]
      refine ⟨hw1, ?_⟩
      have h5 := hw2
      simp only [figWF] at h5
      exact h5
  | @objCons k v v' kvs kvs' hvv hoo ihv iho =>
    intro hw
    have hw' : (k :: kvs.map Prod.fst).Nodup ∧ figWF v = true ∧
        figWFPairs kvs = true := by
      have h0 := hw
      simp only [figWF, figWFPairs, Bool.and_eq_true, decide_eq_true_eq,
        List.map_cons] at h0
      tauto
    obtain ⟨hnd, hwv, hwp⟩ := hw'
    obtain ⟨hkn, hndt⟩ := List.nodup_cons.mp hnd
    obtain ⟨hev, hwv'⟩ := ihv hwv
    obtain ⟨heo, hwo'⟩ := iho (by
      simp only [figWF, Bool.and_eq_true, decide_eq_true_eq]
      exact ⟨hndt, hwp⟩)
    have hms : (sortValues kvs).mergeSort pairLE
        = (sortValues kvs').mergeSort pairLE := by
      have h4 := heo
      simp only [recursive_sort] at h4
      exact FigVal.obj.inj h4
    have hperm : (sortValues kvs).Perm (sortValues kvs') := by
      have h7 := (List.mergeSort_perm (sortValues kvs) pairLE).symm
      rw [hms] at h7
      exact h7.trans (List.mergeSort_perm (sortValues kvs') pairLE)
    have hkeys : (kvs.map Prod.fst).Perm (kvs'.map Prod.fst) := by
      have h6 := hperm.map Prod.fst
      rwa [sortValues_map_fst, sortValues_map_fst] at h6
    refine ⟨?_, ?_⟩
    · simp only [recursive_sort, sortValues]
      congr 1
      apply mergeSort_eq_of_perm_nodup
      · rw [hev]
        exact List.Perm.cons _ hperm
      · simp only [List.map_cons, sortValues_map_fst]
        exact hnd
    · have hkn' : k ∉ kvs'.map Prod.fst := fun hc => hkn (hkeys.mem_iff.mpr hc)
      have hw2 := hwo'
      simp only [figWF, Bool.and_eq_true, decide_eq_true_eq] at hw2
      obtain ⟨hnd', hwp'⟩ := hw2
      simp only [figWF, figWFPairs, Bool.and_eq_true, decide_eq_true_eq,
        List.map_cons]
      exact ⟨List.nodup_cons.mpr ⟨hkn', hnd'⟩, hwv', hwp'⟩
  | @objPerm kvs kvs' hp =>
    intro hw
    simp only [figWF, Bool.and_eq_true, decide_eq_true_eq] at hw
    obtain ⟨hnd, hwp⟩ := hw
    have hpv : (sortValues kvs).Perm (sortValues kvs') := by
      rw [sortValues_eq_map, sortValues_eq_map]
      exact hp.map _
    refine ⟨?_, ?_⟩
    · simp only [recursive_sort]
      congr 1
      apply mergeSort_eq_of_perm_nodup _ _ hpv
      simpa [sortValues_map_fst] using hnd
    · simp only [figWF, Bool.and_eq_true, decide_eq_true_eq]
      constructor
      · exact ((hp.map Prod.fst).nodup_iff).mp hnd
      · rw [figWFPairs_eq_all] at hwp ⊢
        rw [List.all_eq_true] at hwp ⊢
        intro x hx
        exact hwp x (hp.mem_iff.mpr hx)
  | trans hab hbc ihab ihbc =>
    intro hw
    obtain ⟨h1, w1⟩ := ihab hw
    obtain ⟨h2, w2⟩ := ihbc w1
    exact ⟨h1.trans h2, w2⟩

/-- C5: for any two figure descriptions that are structurally identical up
to mapping key order (the first one a valid Python dict structure, i.e.
with distinct keys in every mapping), the parity comparison reports
`parity_ok = true` with identical hashes for both and no first
difference; and — for any inputs whatsoever — the first-difference walk is
skipped whenever the hashes agree. -/
theorem compare_figure_parity_key_order (fig1 fig2 : FigVal) (now : String)
    (hwf : figWF fig1 = true) (heq : FigEquiv fig1 fig2) :
    (compare_figure_parity fig1 fig2 now).parity_ok = true ∧
    (compare_figure_parity fig1 fig2 now).hash_regular
      = (compare_figure_parity fig1 fig2 now).hash_baseline ∧
    (compare_figure_parity fig1 fig2 now).first_difference = none ∧
    ∀ (g1 g2 : FigVal) (t : String),
      (compare_figure_parity g1 g2 t).parity_ok = true →
      (compare_figure_parity g1 g2 t).first_difference = none := by
  have hs : recursive_sort fig1 = recursive_sort fig2 :=
    (recursive_sort_eq_of_equiv heq hwf).1
  have hn : normalize_figure_dict fig1 = normalize_figure_dict fig2 := by
    unfold normalize_figure_dict
    rw [hs]
  have hh : calculate_figure_hash fig1 = calculate_figure_hash fig2 := by
    unfold calculate_figure_hash
    rw [hn]
  refine ⟨?_, ?_, ?_, ?_⟩
  · simp [compare_figure_parity, hh]
  · simp [compare_figure_parity, hh]
  · simp [compare_figure_parity, hh]
  · intro g1 g2 t hok
    simp only [compare_figure_parity] at hok ⊢
    simp only [hok, if_true]

/-- A figure dictionary and a key-reordered copy of it. -/
def c5fig1 : FigVal := .obj [("b", .boolv true), ("a", .str "x")]

def c5fig2 : FigVal := .obj [("a", .str "x"), ("b", .boolv true)]

theorem compare_figure_parity_key_order_witness :
    figWF c5fig1 = true ∧
    (compare_figure_parity c5fig1 c5fig2 "t").parity_ok = true ∧
    (compare_figure_parity c5fig1 c5fig2 "t").hash_regular
      = (compare_figure_parity c5fig1 c5fig2 "t").hash_baseline ∧
    (compare_figure_parity c5fig1 c5fig2 "t").first_difference = none := by
  have hwf : figWF c5fig1 = true := by
    simp [c5fig1, figWF, figWFPairs]
  have hq : FigEquiv c5fig1 c5fig2 :=
    FigEquiv.objPerm (List.Perm.swap (("a", FigVal.str "x") : String × FigVal)
      (("b", FigVal.boolv true) : String × FigVal) [])
  have h := compare_figure_parity_key_order c5fig1 c5fig2 "t" hwf hq
  exact ⟨hwf, h.1, h.2.1, h.2.2.1⟩

end Orion
